import Mathlib

/-!
FuzzRun correction engine: a shallow embedding.

This file embeds the correction engine of the FuzzRun CLI (an auto-correct
runner for mistyped commands) and proves properties of the fuzzy matcher,
the safety gates, the four correction strategies and the orchestrating
decision pipeline.

The embedding mirrors the JavaScript source.  Pure functions
(`damerauLevenshtein`, `findBestMatch`, `hasRiskyArgs`, the strategy
guards) are translated directly.  Effectful collaborators (the child
process spawner, the PATH enumeration, the package-script and git-branch
pools, the regex-based output parsers) are supplied as explicit parameters
of an environment record; a strategy that in the source both proposes and
executes a fix is split here into the proposal (returned to the
orchestrator) and the single execution the orchestrator performs, which
preserves the observable behaviour.  The orchestrator returns, alongside
the final exit code and streams, the trace of executed invocations, so
that "at most one corrective execution" style claims can be stated.
-/

namespace FuzzRun

/-- `normalizeToken` from the source: lower-cases a token
(`String(value || '').toLowerCase()`). -/
def normalizeToken (s : String) : String :=
  String.mk (s.data.map Char.toLower)

/-- The recurrence of the bounded Damerau-Levenshtein dynamic program of
`damerauLevenshtein`, as a table: `dpRec aN bN i j` is the cell `dp[i][j]`
of the source's `dp` array (the early-exit pruning does not alter cell
values, only when the loop stops, so the cells themselves satisfy this
recurrence). -/
def dpRec (aN bN : List Char) : Nat → Nat → Nat
  | 0, j => j
  | i + 1, 0 => i + 1
  | i + 1, j + 1 =>
    let cost := if aN.getD i 'a' = bN.getD j 'a' then 0 else 1
    let v := min (dpRec aN bN i (j + 1) + 1)
      (min (dpRec aN bN (i + 1) j + 1) (dpRec aN bN i j + cost))
    if 0 < i ∧ 0 < j ∧ aN.getD i 'a' = bN.getD (j - 1) 'a' ∧
        aN.getD (i - 1) 'a' = bN.getD j 'a' then
      min v (dpRec aN bN (i - 1) (j - 1) + 1)
    else v
  termination_by i j => i + j
  decreasing_by all_goals omega

/-- One cell of the row-by-row computation: `pp` is row `i-2`, `p` is row
`i-1`, `left` is `dp[i][j-1]`.  Mirrors the body of the inner `for j`
loop of `damerauLevenshtein`, including the adjacent-transposition
lookback. -/
def dlCell (aN bN : List Char) (pp p : List Nat) (i j left : Nat) : Nat :=
  let cost := if aN.getD (i - 1) 'a' = bN.getD (j - 1) 'a' then 0 else 1
  let v := min (p.getD j 0 + 1) (min (left + 1) (p.getD (j - 1) 0 + cost))
  if 1 < i ∧ 1 < j ∧ aN.getD (i - 1) 'a' = bN.getD (j - 2) 'a' ∧
      aN.getD (i - 2) 'a' = bN.getD (j - 1) 'a' then
    min v (pp.getD (j - 2) 0 + 1)
  else v

/-- The cells `dp[i][j], dp[i][j+1], …` of row `i` (`k` of them),
threading the left neighbour through the row as the source's inner loop
does. -/
def dlRowCells (aN bN : List Char) (pp p : List Nat) (i : Nat) :
    Nat → Nat → Nat → List Nat
  | _, _, 0 => []
  | j, left, k + 1 =>
    let v := dlCell aN bN pp p i j left
    v :: dlRowCells aN bN pp p i (j + 1) v k

/-- The outer `for i` loop of `damerauLevenshtein`: builds row `i` from
rows `i-1` and `i-2`, early-exits with `maxD + 1` when the row minimum
(over columns `j ≥ 1`) exceeds `maxD`, and otherwise finally returns
`dp[m][n]`. -/
def dlOuter (aN bN : List Char) (maxD : Nat) :
    Nat → List Char → List Nat → List Nat → Nat
  | _, [], _, p => p.getD bN.length 0
  | i, _ :: cs, _pp, p =>
    let cells := dlRowCells aN bN _pp p i 1 i bN.length
    let rowMin := cells.foldl min (maxD + 1)
    if maxD < rowMin then maxD + 1
    else dlOuter aN bN maxD (i + 1) cs p (i :: cells)

/-- `damerauLevenshtein(a, b, maxDistance)` from the source: bounded,
case-insensitive edit distance with adjacent transpositions.  Returns `0`
on normalized equality, `maxDistance + 1` when the length difference
exceeds the bound or when some row of the dynamic program has all entries
above the bound (early exit), and the final table cell otherwise. -/
def damerauLevenshtein (a b : String) (maxDistance : Nat) : Nat :=
  let aN := a.data.map Char.toLower
  let bN := b.data.map Char.toLower
  if aN = bN then 0
  else if maxDistance < max aN.length bN.length - min aN.length bN.length then
    maxDistance + 1
  else
    dlOuter aN bN maxDistance 1 aN (List.range (bN.length + 1))
      (List.range (bN.length + 1))

example : damerauLevenshtein "git" "gti" 1 = 1 := by decide
example : damerauLevenshtein "got" "gti" 1 = 2 := by decide
example : damerauLevenshtein "commit" "commmit" 1 = 1 := by decide
example : damerauLevenshtein "ab" "cdef" 2 = 4 := by decide
example : damerauLevenshtein "cdef" "ab" 2 = 3 := by decide
example : damerauLevenshtein "a" "" 2 = 3 := by decide
example : damerauLevenshtein "" "a" 2 = 1 := by decide
example : damerauLevenshtein "foo" "Foo" 1 = 0 := by decide

/-- JavaScript's `String.prototype.startsWith`, computed on the character
list (kernel-reducible form of `String.startsWith`). -/
def strStartsWith (s pre : String) : Bool :=
  pre.data.isPrefixOf s.data

/-- JavaScript's `String.prototype.slice(n)` for a nonnegative `n`,
computed on the character list (kernel-reducible form of
`String.drop`). -/
def strDrop (s : String) (n : Nat) : String :=
  String.mk (s.data.drop n)

/-- `DEFAULT_PRIORITY_BASES` from the source: the built-in tie-break
preference set of well-known tools. -/
def DEFAULT_PRIORITY_BASES : List String :=
  ["git", "npm", "yarn", "pnpm", "node", "python", "python3", "pip", "pip3",
   "docker", "kubectl", "gh", "go", "cargo", "dotnet", "java", "mvn",
   "gradle"]

/-- `DANGEROUS_BASE` from the source: the denylist of destructive base
commands. -/
def DANGEROUS_BASE : List String :=
  ["rm", "mv", "dd", "shutdown", "reboot", "halt", "poweroff"]

/-- Loop state of `findBestMatch`: current best candidate, best distance
so far and the list of candidates tying at the best distance. -/
structure FBMState where
  best : Option String
  bestDistance : Nat
  ties : List String
deriving DecidableEq

/-- One iteration of the `for candidate of candidates` loop of
`findBestMatch`. -/
def fbmStep (target : String) (maxD : Nat) (s : FBMState) (c : String) :
    FBMState :=
  let d := damerauLevenshtein c target maxD
  if d < s.bestDistance then ⟨some c, d, [c]⟩
  else if d = s.bestDistance then ⟨s.best, s.bestDistance, s.ties ++ [c]⟩
  else s

/-- JavaScript falsiness of the nullable `best` value in
`findBestMatch`'s guard `!best`: both `null` and the empty string are
falsy, so an empty-string best candidate is discarded like a missing
one. -/
def strOptFalsy (s : Option String) : Bool :=
  match s with
  | none => true
  | some v => v = ""

/-- `findBestMatch(candidates, target, maxDistance)` from the source.
The priority set (`PRIORITY_BASES` in the source, the defaults plus
normalized environment-supplied extras) is passed explicitly as
`priority`; membership is tested on the normalized tie value as the
source does.  Returns the best candidate and its distance, `none` when
no candidate is within the bound, when the target is empty, when the
best candidate is the empty string (the `!best` falsy guard), or when
the tie at the minimum cannot be resolved to exactly one priority
member. -/
def findBestMatch (priority : List String) (candidates : List String)
    (target : String) (maxD : Nat) : Option (String × Nat) :=
  if target = "" then none
  else
    let s := candidates.foldl (fbmStep target maxD) ⟨none, maxD + 1, []⟩
    if strOptFalsy s.best ∨ maxD < s.bestDistance then none
    else if 1 < s.ties.length then
      match s.ties.filter (fun v => priority.contains (normalizeToken v)) with
      | [p] => some (p, s.bestDistance)
      | _ => none
    else
      match s.best with
      | some b => some (b, s.bestDistance)
      | none => none

example : findBestMatch [] ["got", "git"] "gti" 1 = some ("git", 1) := by
  decide
example : findBestMatch ["git"] ["git", "gt"] "gti" 1 = some ("git", 1) := by
  decide
example : findBestMatch [] ["git", "gt"] "gti" 1 = none := by decide
example : findBestMatch ["git", "gt"] ["git", "gt"] "gti" 1 = none := by
  decide
example : findBestMatch [] ["rm"] "rn" 1 = some ("rm", 1) := by decide
example : findBestMatch [] [""] "" 1 = none := by decide
example : findBestMatch [] [""] "x" 1 = none := by decide

/-- `COMMON_SUBCOMMANDS` from the source: the static per-base subcommand
dictionary (`COMMON_SUBCOMMANDS[command] || []` yields `[]` for bases
without an entry). -/
def COMMON_SUBCOMMANDS (command : String) : List String :=
  if command = "git" then
    ["add", "bisect", "branch", "checkout", "clone", "commit", "diff",
     "fetch", "init", "log", "merge", "mv", "pull", "push", "rebase",
     "revert", "rm", "show", "stash", "status", "switch", "tag"]
  else if command = "npm" then
    ["install", "init", "run", "test", "publish", "link", "login",
     "logout", "ci", "config", "cache", "start", "stop", "restart",
     "update", "outdated", "list", "prune", "exec", "root", "pack",
     "uninstall"]
  else if command = "yarn" then
    ["add", "install", "remove", "run", "test", "init", "upgrade",
     "global", "dlx", "config", "list"]
  else if command = "pnpm" then
    ["add", "install", "update", "remove", "run", "exec", "list",
     "publish", "install-test", "fetch"]
  else if command = "pip" then
    ["install", "uninstall", "list", "freeze", "show", "search", "cache",
     "config"]
  else if command = "docker" then
    ["build", "commit", "compose", "cp", "create", "diff", "events",
     "exec", "images", "info", "inspect", "kill", "load", "logs", "pause",
     "port", "ps", "pull", "push", "rename", "restart", "rm", "rmi",
     "run", "save", "start", "stats", "stop", "tag", "top", "unpause",
     "update", "version"]
  else if command = "kubectl" then
    ["apply", "get", "describe", "delete", "logs", "exec", "create",
     "edit", "explain", "expose", "port-forward", "top", "cp", "scale",
     "rollout", "set", "explain", "label", "annotate", "cordon", "drain",
     "uncordon"]
  else if command = "gh" then
    ["auth", "repo", "issue", "pr", "gist", "alias", "api", "search",
     "run", "workflow", "status", "label"]
  else []

/-- `SAFE_SUBCOMMAND_BASES` from the source: the keys of
`COMMON_SUBCOMMANDS`. -/
def SAFE_SUBCOMMAND_BASES : List String :=
  ["git", "npm", "yarn", "pnpm", "pip", "docker", "kubectl", "gh"]

/-- `SCRIPT_BASES` from the source: the script-runner bases eligible for
script-name correction. -/
def SCRIPT_BASES : List String := ["npm", "yarn", "pnpm"]

/-- One argument matching one of the `RISKY_ARG_PATTERNS` regexes of the
source: `-f`, `-rf`, `-fr` exactly, and the word-style flags `--force`,
`--hard`, `--delete`, `--purge`, `--no-preserve-root` as case-insensitive
whole-string matches. -/
def isRiskyArg (arg : String) : Bool :=
  arg = "-f" || arg = "-rf" || arg = "-fr" ||
  normalizeToken arg = "--force" || normalizeToken arg = "--hard" ||
  normalizeToken arg = "--delete" || normalizeToken arg = "--purge" ||
  normalizeToken arg = "--no-preserve-root"

/-- `hasRiskyArgs(args)` from the source: some argument matches a
destructive-flag pattern. -/
def hasRiskyArgs (args : List String) : Bool :=
  args.any isRiskyArg

example : hasRiskyArgs ["-m", "msg"] = false := by decide
example : hasRiskyArgs ["x", "--Force"] = true := by decide

/-- The proposal computed by `tryBaseCorrection(command, args)`: the
corrected invocation (new base, unchanged args) that the source would
execute, or `none`.  The PATH pool (`PATH_COMMANDS`) and the priority
set are explicit parameters; the execution of the proposal is performed
by the orchestrator. -/
def tryBaseCorrection (pathCommands priority : List String) (maxD : Nat)
    (command : String) (args : List String) : Option (String × List String) :=
  if hasRiskyArgs args then none
  else
    match findBestMatch priority pathCommands command maxD with
    | some (m, _) =>
      if ¬ DANGEROUS_BASE.contains m ∧ m ≠ command then some (m, args)
      else none
    | none => none

/-- The `outputDistance` computation of `trySubcommandCorrection`: the
distance of the output-parsed suggestion to the attempted subcommand,
or `maxD + 1` when no suggestion was parsed. -/
def outputDistanceOf (fromOutput : Option String) (attemptedSub : String)
    (maxD : Nat) : Nat :=
  match fromOutput with
  | some s => damerauLevenshtein s attemptedSub maxD
  | none => maxD + 1

/-- The proposal computed by `trySubcommandCorrection(command, args,
combinedOutput)`.  `allowAny` is the `FUZZRUN_ALLOW_ANY_SUBCOMMANDS`
override; `fromOutput` is the result of the collaborator
`parseSuggestion(combinedOutput)` (a regex scan of the captured output,
abstracted here as its parsed value: `none` or a nonempty suggestion). -/
def trySubcommandCorrection (allowAny : Bool) (priority : List String)
    (maxD : Nat) (command : String) (args : List String)
    (fromOutput : Option String) : Option (String × List String) :=
  if ¬ SAFE_SUBCOMMAND_BASES.contains command ∧ ¬ allowAny then none
  else
    match args with
    | [] => none
    | attemptedSub :: restArgs =>
      if strStartsWith attemptedSub "-" then none
      else if hasRiskyArgs (attemptedSub :: restArgs) then none
      else
        let candidates := COMMON_SUBCOMMANDS command
        let fromDict := findBestMatch priority candidates attemptedSub maxD
        let outputDistance := outputDistanceOf fromOutput attemptedSub maxD
        let choice : Option String :=
          if outputDistance ≤ maxD then fromOutput
          else fromDict.map Prod.fst
        match choice with
        | none => none
        | some c =>
          if c ≠ attemptedSub ∧
              damerauLevenshtein c attemptedSub maxD ≤ maxD then
            some (command, c :: restArgs)
          else none

/-- The proposal computed by `tryScriptCorrection(command, args,
combinedOutput)`.  `scripts` is the collaborator pool
`getPackageScripts(process.cwd())` (package.json script names) and
`scriptErr` the collaborator test `isScriptError(combinedOutput)` (a
regex scan for "missing script" style messages). -/
def tryScriptCorrection (priority : List String) (maxD : Nat)
    (scripts : List String) (scriptErr : Bool) (command : String)
    (args : List String) : Option (String × List String) :=
  if ¬ SCRIPT_BASES.contains command then none
  else
    match args with
    | a0 :: scriptName :: restArgs =>
      if a0 ≠ "run" then none
      else if scriptName = "" || strStartsWith scriptName "-" then none
      else if ¬ scriptErr then none
      else if hasRiskyArgs (a0 :: scriptName :: restArgs) then none
      else
        match findBestMatch priority scripts scriptName maxD with
        | some (m, _) => some (command, "run" :: m :: restArgs)
        | none => none
    | _ => none

/-- The proposal computed by `tryGitBranchCorrection(command, args,
combinedOutput)`.  `branches` is the collaborator pool `getGitBranches()`
and `pathspecErr` the collaborator test
`GIT_PATHSPEC_PATTERN.test(combinedOutput)`. -/
def tryGitBranchCorrection (priority : List String) (maxD : Nat)
    (branches : List String) (pathspecErr : Bool) (command : String)
    (args : List String) : Option (String × List String) :=
  if command ≠ "git" then none
  else
    match args with
    | subcommand :: branch :: restArgs =>
      if subcommand ≠ "checkout" ∧ subcommand ≠ "switch" then none
      else if branch = "" || strStartsWith branch "-" then none
      else if ¬ pathspecErr then none
      else if hasRiskyArgs (subcommand :: branch :: restArgs) then none
      else
        match findBestMatch priority branches branch maxD with
        | some (m, _) => some (command, subcommand :: m :: restArgs)
        | none => none
    | _ => none

/-- `normalizePowerShellGetAlias` embeds `normalizePowerShellGetPrefix`
from the source (renamed here): strips a leading `Get-` when the
remainder resolves (exactly or fuzzily) against the PATH pool.  The
source applies it unconditionally — it contains no platform test. -/
def normalizePowerShellGetAlias (pathCommands priority : List String)
    (maxD : Nat) (command : String) : String :=
  if command = "" then command
  else
    let lowered := normalizeToken command
    if ¬ strStartsWith lowered "get-" then command
    else if pathCommands.contains command || pathCommands.contains lowered then
      command
    else
      let stripped := strDrop command 4
      if stripped = "" then command
      else if pathCommands.contains stripped then stripped
      else
        match findBestMatch priority pathCommands stripped maxD with
        | some _ => stripped
        | none => command

example :
    normalizePowerShellGetAlias ["foo"] DEFAULT_PRIORITY_BASES 1 "Get-Foo" =
      "Foo" := by decide
example :
    trySubcommandCorrection false DEFAULT_PRIORITY_BASES 1 "git"
      ["commmit", "-m", "msg"] none = some ("git", ["commit", "-m", "msg"]) := by
  decide
example :
    trySubcommandCorrection true DEFAULT_PRIORITY_BASES 1 "rm" ["instal"]
      (some "install") = some ("rm", ["install"]) := by decide
example :
    tryBaseCorrection ["rm"] DEFAULT_PRIORITY_BASES 1 "rn" [] = none := by
  decide

/-- The `error` object a failed `spawnSync` attaches to its result:
a system error code (`'ENOENT'` for a missing executable) and a
message. -/
structure SpawnErr where
  code : String
  message : String
deriving DecidableEq

/-- The raw result of the `spawnSync` collaborator: an optional numeric
exit status (absent e.g. when the child was killed by a signal or could
not be spawned), the captured streams, and an optional spawn error. -/
structure SpawnOutcome where
  status : Option Int
  stdout : String
  stderr : String
  error : Option SpawnErr
deriving DecidableEq

/-- The result of `run(cmd, args)` from the source. -/
structure RunResult where
  code : Int
  stdout : String
  stderr : String
  error : Option SpawnErr
deriving DecidableEq

/-- `run(cmd, args)` from the source: executes via the `spawn`
collaborator and synthesizes the exit code — the numeric status when
present, else `1` when a spawn error occurred, else `0`. -/
def run (spawn : String → List String → SpawnOutcome) (cmd : String)
    (args : List String) : RunResult :=
  let result := spawn cmd args
  { code :=
      match result.status with
      | some n => n
      | none => if result.error.isSome then 1 else 0
    stdout := result.stdout
    stderr := result.stderr
    error := result.error }

/-- The test `firstRun.error && firstRun.error.code === 'ENOENT'` from
`main`: the base executable could not be found. -/
def spawnNotFound (r : RunResult) : Bool :=
  match r.error with
  | some e => e.code = "ENOENT"
  | none => false

/-- The combined output `` `${result.stderr}\n${result.stdout}` `` the
strategies scan. -/
def combinedOutput (r : RunResult) : String :=
  r.stderr ++ "\n" ++ r.stdout

/-- The message `main` writes to stderr when the base command is not
found and no base correction applies: the spawn error's own message
when nonempty, else a `fuzzrun: command not found` fallback. -/
def notFoundMessage (e : Option SpawnErr) (base : String) : String :=
  match e with
  | some err =>
    if err.message ≠ "" then err.message ++ "\n"
    else "fuzzrun: command not found: " ++ base ++ "\n"
  | none => "fuzzrun: command not found: " ++ base ++ "\n"

/-- The environment of one top-level run: the effectful collaborators of
the engine, as explicit data.  `platform` is `process.platform`;
`spawn` the child-process primitive; `pathCommands` the `PATH_COMMANDS`
snapshot; `priority` the `PRIORITY_BASES` set; `maxD` the configured
`MAX_DISTANCE`; `allowAny` the `FUZZRUN_ALLOW_ANY_SUBCOMMANDS` override;
`scripts` and `branches` the dynamic pools; `suggestion`, `scriptErr`
and `pathspecErr` the regex collaborators `parseSuggestion`,
`isScriptError` and `GIT_PATHSPEC_PATTERN.test` as functions of the
combined output text. -/
structure Env where
  platform : String
  spawn : String → List String → SpawnOutcome
  pathCommands : List String
  priority : List String
  maxD : Nat
  allowAny : Bool
  scripts : List String
  branches : List String
  suggestion : String → Option String
  scriptErr : String → Bool
  pathspecErr : String → Bool

/-- The outcome of a top-level run: process exit code, bytes written to
the real stdout and stderr (the `logFix` auto-correct notice, an extra
stderr line emitted before a corrected execution, is not modelled), and
the trace of invocations executed via `run`, in order. -/
structure FinalOutcome where
  exitCode : Int
  out : String
  err : String
  trace : List (String × List String)
deriving DecidableEq

/-- The shared nonbase-strategy cascade of `main`: try subcommand, then
script, then branch correction, in that fixed order, returning the first
proposal (both the `FAILED_NOT_FOUND` chain and the `FAILED_OTHER` path
of the source run exactly this sequence). -/
def chainFix (env : Env) (command : String) (args : List String)
    (comb : String) : Option (String × List String) :=
  match trySubcommandCorrection env.allowAny env.priority env.maxD command
      args (env.suggestion comb) with
  | some inv => some inv
  | none =>
    match tryScriptCorrection env.priority env.maxD env.scripts
        (env.scriptErr comb) command args with
    | some inv => some inv
    | none =>
      tryGitBranchCorrection env.priority env.maxD env.branches
        (env.pathspecErr comb) command args

/-- The decision pipeline of `main` after argv splitting (the
`enable`/`disable`/`status` actions and the auto-enable step are outside
the engine): normalizes the `Get-` alias, executes the original
invocation, and on failure applies the correction strategies — base
correction (followed, when the corrected run itself fails, by the
subcommand → script → branch chain) for a spawn-not-found error, or the
subcommand → script → branch cascade directly for an ordinary nonzero
exit — propagating the final result's streams and exit code. -/
def orchestrate (env : Env) (argv0 : String) (rest : List String) :
    FinalOutcome :=
  let baseCommand :=
    normalizePowerShellGetAlias env.pathCommands env.priority env.maxD argv0
  let firstRun := run env.spawn baseCommand rest
  if spawnNotFound firstRun then
    match tryBaseCorrection env.pathCommands env.priority env.maxD
        baseCommand rest with
    | some (newBase, newArgs) =>
      let result := run env.spawn newBase newArgs
      if result.code ≠ 0 then
        match chainFix env newBase newArgs (combinedOutput result) with
        | some (c2, a2) =>
          let r2 := run env.spawn c2 a2
          ⟨r2.code, r2.stdout, r2.stderr,
            [(baseCommand, rest), (newBase, newArgs), (c2, a2)]⟩
        | none =>
          ⟨result.code, result.stdout, result.stderr,
            [(baseCommand, rest), (newBase, newArgs)]⟩
      else
        ⟨result.code, result.stdout, result.stderr,
          [(baseCommand, rest), (newBase, newArgs)]⟩
    | none =>
      ⟨firstRun.code, "", notFoundMessage firstRun.error baseCommand,
        [(baseCommand, rest)]⟩
  else if firstRun.code = 0 then
    ⟨0, firstRun.stdout, firstRun.stderr, [(baseCommand, rest)]⟩
  else
    match chainFix env baseCommand rest (combinedOutput firstRun) with
    | some (c2, a2) =>
      let r2 := run env.spawn c2 a2
      ⟨r2.code, r2.stdout, r2.stderr, [(baseCommand, rest), (c2, a2)]⟩
    | none =>
      ⟨firstRun.code, firstRun.stdout, firstRun.stderr,
        [(baseCommand, rest)]⟩

/-- A minimal concrete environment for witnesses: a spawner returning a
fixed outcome, empty candidate pools, default configuration. -/
def mkEnv (outcome : SpawnOutcome) : Env :=
  { platform := "linux"
    spawn := fun _ _ => outcome
    pathCommands := []
    priority := DEFAULT_PRIORITY_BASES
    maxD := 1
    allowAny := false
    scripts := []
    branches := []
    suggestion := fun _ => none
    scriptErr := fun _ => false
    pathspecErr := fun _ => false }

example :
    orchestrate (mkEnv ⟨some 0, "ok", "", none⟩) "ls" [] =
      ⟨0, "ok", "", [("ls", [])]⟩ := by decide
example :
    orchestrate (mkEnv ⟨none, "", "", some ⟨"ENOENT", "spawnSync gti ENOENT"⟩⟩)
        "gti" [] =
      ⟨1, "", "spawnSync gti ENOENT\n", [("gti", [])]⟩ := by decide

/-- C3: every argument list containing a risky argument makes all four
strategies return no proposal, for any pools, configuration and captured
output. -/
theorem risky_args_block_all_strategies
    (pathCommands priority scripts branches : List String) (maxD : Nat)
    (allowAny scriptErr pathspecErr : Bool) (command : String)
    (args : List String) (fromOutput : Option String)
    (h : hasRiskyArgs args = true) :
    tryBaseCorrection pathCommands priority maxD command args = none ∧
    trySubcommandCorrection allowAny priority maxD command args fromOutput =
      none ∧
    tryScriptCorrection priority maxD scripts scriptErr command args = none ∧
    tryGitBranchCorrection priority maxD branches pathspecErr command args =
      none := by
  refine ⟨?_, ?_, ?_, ?_⟩
  · simp only [tryBaseCorrection, h, if_true]
  · unfold trySubcommandCorrection
    split
    · rfl
    · match args, h with
      | a :: l, h =>
        simp only []
        split
        · rfl
        · simp only [h, if_true]
  · unfold tryScriptCorrection
    split
    · rfl
    · match args with
      | [] => rfl
      | [a] => rfl
      | a :: b :: l =>
        simp only [h]
        split
        · rfl
        · split
          · rfl
          · split
            · rfl
            · simp only [h, if_true]
  · unfold tryGitBranchCorrection
    split
    · rfl
    · match args with
      | [] => rfl
      | [a] => rfl
      | a :: b :: l =>
        simp only [h]
        split
        · rfl
        · split
          · rfl
          · split
            · rfl
            · simp only [h, if_true]

/-- Witness for the risky-argument gate at a concrete risky invocation. -/
theorem risky_args_block_all_strategies_witness :
    hasRiskyArgs ["-rf"] = true ∧
    tryBaseCorrection ["rm"] [] 1 "rn" ["-rf"] = none ∧
    trySubcommandCorrection false [] 1 "git" ["-rf"] none = none := by
  have h := risky_args_block_all_strategies ["rm"] [] [] [] 1 false false
    false "rn" ["-rf"] none (by decide)
  have h2 := risky_args_block_all_strategies ["rm"] [] [] [] 1 false false
    false "git" ["-rf"] none (by decide)
  exact ⟨by decide, h.1, h2.2.1⟩

/-- C10: when the execution primitive yields neither a numeric status
nor a spawn error (e.g. the child was terminated by a signal), `run`
synthesizes exit code `0` and the orchestrator treats the run as a
success: output forwarded verbatim, exit `0`, no correction executed. -/
theorem signal_termination_is_success (env : Env) (argv0 : String)
    (rest : List String) (base : String)
    (hb : base =
      normalizePowerShellGetAlias env.pathCommands env.priority env.maxD argv0)
    (h1 : (env.spawn base rest).status = none)
    (h2 : (env.spawn base rest).error = none) :
    (run env.spawn base rest).code = 0 ∧
    orchestrate env argv0 rest =
      ⟨0, (run env.spawn base rest).stdout, (run env.spawn base rest).stderr,
        [(base, rest)]⟩ := by
  have hcode : (run env.spawn base rest).code = 0 := by
    simp only [run, h1, h2, Option.isSome_none, if_neg]
    simp
  refine ⟨hcode, ?_⟩
  have hnf : spawnNotFound (run env.spawn base rest) = false := by
    simp only [run, spawnNotFound, h2]
  simp only [orchestrate, ← hb, hnf, Bool.false_eq_true, if_false, hcode,
    if_true, if_pos]

/-- Witness for the signal-termination claim at a concrete environment. -/
theorem signal_termination_is_success_witness :
    (run (mkEnv ⟨none, "o", "e", none⟩).spawn "sleep" ["100"]).code = 0 ∧
    orchestrate (mkEnv ⟨none, "o", "e", none⟩) "sleep" ["100"] =
      ⟨0, "o", "e", [("sleep", ["100"])]⟩ := by
  have h := signal_termination_is_success (mkEnv ⟨none, "o", "e", none⟩)
    "sleep" ["100"] "sleep" (by decide) (by decide) (by decide)
  exact ⟨h.1, h.2⟩

/-- C4: with the original invocation spawned (no not-found error), a zero
exit propagates the original result verbatim with no correction, and a
nonzero exit for which none of the three nonbase strategies yields a
proposal also propagates the original result verbatim. -/
theorem original_result_propagated_verbatim (env : Env) (argv0 : String)
    (rest : List String) (base : String)
    (hb : base =
      normalizePowerShellGetAlias env.pathCommands env.priority env.maxD argv0)
    (hnf : spawnNotFound (run env.spawn base rest) = false) :
    ((run env.spawn base rest).code = 0 →
      orchestrate env argv0 rest =
        ⟨0, (run env.spawn base rest).stdout,
          (run env.spawn base rest).stderr, [(base, rest)]⟩) ∧
    ((run env.spawn base rest).code ≠ 0 →
      trySubcommandCorrection env.allowAny env.priority env.maxD base rest
        (env.suggestion (combinedOutput (run env.spawn base rest))) = none →
      tryScriptCorrection env.priority env.maxD env.scripts
        (env.scriptErr (combinedOutput (run env.spawn base rest))) base rest =
        none →
      tryGitBranchCorrection env.priority env.maxD env.branches
        (env.pathspecErr (combinedOutput (run env.spawn base rest))) base
        rest = none →
      orchestrate env argv0 rest =
        ⟨(run env.spawn base rest).code, (run env.spawn base rest).stdout,
          (run env.spawn base rest).stderr, [(base, rest)]⟩) := by
  constructor
  · intro hc
    simp only [orchestrate, ← hb, hnf, Bool.false_eq_true, if_false, hc,
      if_true, if_pos]
  · intro hc hsub hscript hbranch
    have hchain : chainFix env base rest
        (combinedOutput (run env.spawn base rest)) = none := by
      simp only [chainFix, hsub, hscript, hbranch]
    simp only [orchestrate, ← hb, hnf, Bool.false_eq_true, if_false, hc,
      if_neg, hchain]

/-- Witness for verbatim propagation at a concrete failing run with no
applicable strategy. -/
theorem original_result_propagated_verbatim_witness :
    orchestrate (mkEnv ⟨some 0, "o", "e", none⟩) "ls" [] =
      ⟨0, "o", "e", [("ls", [])]⟩ ∧
    orchestrate (mkEnv ⟨some 2, "o", "e", none⟩) "ls" [] =
      ⟨2, "o", "e", [("ls", [])]⟩ := by
  have h1 := original_result_propagated_verbatim
    (mkEnv ⟨some 0, "o", "e", none⟩) "ls" [] "ls" (by decide) (by decide)
  have h2 := original_result_propagated_verbatim
    (mkEnv ⟨some 2, "o", "e", none⟩) "ls" [] "ls" (by decide) (by decide)
  exact ⟨h1.1 (by decide),
    h2.2 (by decide) (by decide) (by decide) (by decide)⟩

/-- C1: the trace of executed invocations of a top-level run has length
at most 3; at most 2 unless the original run failed with a
spawn-not-found error; and length 3 forces the sanctioned chain — a
not-found original, an executed base fix that itself exited nonzero, and
one chained nonbase fix. -/
theorem at_most_one_correction_episode (env : Env) (argv0 : String)
    (rest : List String) (base : String)
    (hb : base =
      normalizePowerShellGetAlias env.pathCommands env.priority env.maxD argv0) :
    (orchestrate env argv0 rest).trace.length ≤ 3 ∧
    (spawnNotFound (run env.spawn base rest) = false →
      (orchestrate env argv0 rest).trace.length ≤ 2) ∧
    ((orchestrate env argv0 rest).trace.length = 3 →
      spawnNotFound (run env.spawn base rest) = true ∧
      ∃ nb na,
        tryBaseCorrection env.pathCommands env.priority env.maxD base rest =
          some (nb, na) ∧
        (run env.spawn nb na).code ≠ 0 ∧
        chainFix env nb na (combinedOutput (run env.spawn nb na)) ≠ none) := by
  subst hb
  unfold orchestrate
  dsimp only
  split
  next hnf =>
    split
    next nb na hbase =>
      split
      next hcode =>
        split
        next c2 a2 hchain =>
          refine ⟨by simp, fun hnf2 => by simp_all, fun _ => ?_⟩
          exact ⟨hnf, nb, na, hbase, hcode, by simp [hchain]⟩
        next hchain => exact ⟨by simp, fun _ => by simp, fun h => by simp at h⟩
      next hcode => exact ⟨by simp, fun _ => by simp, fun h => by simp at h⟩
    next hbase => exact ⟨by simp, fun _ => by simp, fun h => by simp at h⟩
  next hnf =>
    split
    next hcode => exact ⟨by simp, fun _ => by simp, fun h => by simp at h⟩
    next hcode =>
      split
      next c2 a2 hchain =>
        exact ⟨by simp, fun _ => by simp, fun h => by simp at h⟩
      next hchain => exact ⟨by simp, fun _ => by simp, fun h => by simp at h⟩

/-- Witness for the execution-count bound at a concrete environment. -/
theorem at_most_one_correction_episode_witness :
    (orchestrate (mkEnv ⟨some 0, "o", "e", none⟩) "ls" []).trace.length ≤ 3 ∧
    (orchestrate (mkEnv ⟨some 0, "o", "e", none⟩) "ls" []).trace.length ≤ 2 := by
  have h := at_most_one_correction_episode (mkEnv ⟨some 0, "o", "e", none⟩)
    "ls" [] "ls" (by decide)
  exact ⟨h.1, h.2.1 (by decide)⟩

/-- C9 (amended): the `Get-` alias normalization is applied on every
platform — the first executed invocation always uses the normalized
base, and the whole pipeline is independent of `platform`. -/
theorem get_alias_normalization_unconditional (env : Env) (argv0 : String)
    (rest : List String) (p : String) :
    (orchestrate env argv0 rest).trace.head? =
      some (normalizePowerShellGetAlias env.pathCommands env.priority
        env.maxD argv0, rest) ∧
    orchestrate { env with platform := p } argv0 rest =
      orchestrate env argv0 rest := by
  constructor
  · unfold orchestrate
    dsimp only
    repeat' split
    all_goals rfl
  · rfl

/-- C9 (counterexample): on a platform that is not `win32`, a
`Get-`-prefixed base whose remainder matches the PATH pool is still
rewritten before the first execution (the source contains no platform
test). -/
theorem get_alias_applied_off_windows :
    ({ mkEnv ⟨some 0, "", "", none⟩ with pathCommands := ["foo"] } :
        Env).platform = "linux" ∧
    ({ mkEnv ⟨some 0, "", "", none⟩ with pathCommands := ["foo"]} :
        Env).platform ≠ "win32" ∧
    strStartsWith "Get-Foo" "Get-" = true ∧
    (orchestrate { mkEnv ⟨some 0, "", "", none⟩ with pathCommands := ["foo"] }
        "Get-Foo" []).trace = [("Foo", [])] ∧
    "Foo" ≠ "Get-Foo" := by decide

/-- C7 (amended): when the original run fails with a spawn-not-found
error, no base correction applies, and no numeric status is available,
the process exits with the synthesized code 1 and writes the spawn
error's message to the error stream (falling back to a
`fuzzrun: command not found` message when the error carries none). -/
theorem not_found_without_correction (env : Env) (argv0 : String)
    (rest : List String) (base : String)
    (hb : base =
      normalizePowerShellGetAlias env.pathCommands env.priority env.maxD argv0)
    (h1 : spawnNotFound (run env.spawn base rest) = true)
    (h2 : tryBaseCorrection env.pathCommands env.priority env.maxD base rest =
      none)
    (h3 : (env.spawn base rest).status = none) :
    orchestrate env argv0 rest =
      ⟨1, "", notFoundMessage (run env.spawn base rest).error base,
        [(base, rest)]⟩ := by
  subst hb
  have herr : (run env.spawn
      (normalizePowerShellGetAlias env.pathCommands env.priority env.maxD
        argv0) rest).error.isSome = true := by
    unfold spawnNotFound at h1
    revert h1
    cases (run env.spawn
        (normalizePowerShellGetAlias env.pathCommands env.priority env.maxD
          argv0) rest).error <;> simp
  have hcode : (run env.spawn
      (normalizePowerShellGetAlias env.pathCommands env.priority env.maxD
        argv0) rest).code = 1 := by
    simp only [run] at herr ⊢
    rw [h3, if_pos herr]
  unfold orchestrate
  dsimp only
  rw [if_pos h1, h2]
  rw [hcode]

/-- Witness for the not-found propagation at a concrete environment. -/
theorem not_found_without_correction_witness :
    orchestrate (mkEnv ⟨none, "", "", some ⟨"ENOENT", "m"⟩⟩) "zzz" [] =
      ⟨1, "", "m\n", [("zzz", [])]⟩ := by
  have h := not_found_without_correction
    (mkEnv ⟨none, "", "", some ⟨"ENOENT", "m"⟩⟩) "zzz" [] "zzz"
    (by decide) (by decide) (by decide) (by decide)
  simpa using h

/-- C7 (counterexample): with a realistic spawn error message the bytes
written to the error stream are the spawn error's own message, which
does not contain the phrase `command not found`. -/
theorem not_found_message_counterexample :
    (orchestrate (mkEnv ⟨none, "", "", some ⟨"ENOENT", "spawnSync gti ENOENT"⟩⟩)
        "gti" []).err = "spawnSync gti ENOENT\n" ∧
    (orchestrate (mkEnv ⟨none, "", "", some ⟨"ENOENT", "spawnSync gti ENOENT"⟩⟩)
        "gti" []).exitCode = 1 ∧
    ¬ ("command not found".data <:+: "spawnSync gti ENOENT\n".data) := by
  decide

/-- A base in the static safe-subcommand dictionary is never in the
denylist. -/
theorem safeBase_not_dangerous (c : String)
    (h : SAFE_SUBCOMMAND_BASES.contains c = true) :
    DANGEROUS_BASE.contains c = false := by
  have hm : c ∈ SAFE_SUBCOMMAND_BASES := List.elem_iff.mp h
  fin_cases hm <;> decide

/-- A script-runner base is never in the denylist. -/
theorem scriptBase_not_dangerous (c : String)
    (h : SCRIPT_BASES.contains c = true) :
    DANGEROUS_BASE.contains c = false := by
  have hm : c ∈ SCRIPT_BASES := List.elem_iff.mp h
  fin_cases hm <;> decide

/-- Every subcommand-correction proposal keeps the original base. -/
theorem trySubcommand_some_base (allowAny : Bool) (priority : List String)
    (maxD : Nat) (command : String) (args : List String)
    (fromOutput : Option String) (inv : String × List String)
    (h : trySubcommandCorrection allowAny priority maxD command args
      fromOutput = some inv) : inv.1 = command := by
  unfold trySubcommandCorrection at h
  split at h
  · exact absurd h (by simp)
  · match args, h with
    | a :: l, h =>
      simp only [] at h
      split at h
      · exact absurd h (by simp)
      · split at h
        · exact absurd h (by simp)
        · split at h
          · exact absurd h (by simp)
          · split at h
            · simp only [Option.some.injEq] at h
              rw [← h]
            · exact absurd h (by simp)

/-- A subcommand-correction proposal with the allow-any override
disabled only fires for a base in the static dictionary. -/
theorem trySubcommand_some_safe (priority : List String) (maxD : Nat)
    (command : String) (args : List String) (fromOutput : Option String)
    (inv : String × List String)
    (h : trySubcommandCorrection false priority maxD command args
      fromOutput = some inv) :
    SAFE_SUBCOMMAND_BASES.contains command = true := by
  unfold trySubcommandCorrection at h
  split at h
  · exact absurd h (by simp)
  next hg =>
    revert hg
    cases SAFE_SUBCOMMAND_BASES.contains command <;> simp

/-- Every script-name-correction proposal keeps the original base, which
is a script-runner base. -/
theorem tryScript_some_base (priority : List String) (maxD : Nat)
    (scripts : List String) (scriptErr : Bool) (command : String)
    (args : List String) (inv : String × List String)
    (h : tryScriptCorrection priority maxD scripts scriptErr command args =
      some inv) :
    inv.1 = command ∧ SCRIPT_BASES.contains command = true := by
  unfold tryScriptCorrection at h
  split at h
  · exact absurd h (by simp)
  next hg =>
    refine ⟨?_, by revert hg; cases SCRIPT_BASES.contains command <;> simp⟩
    split at h
    · split at h
      · exact absurd h (by simp)
      · split at h
        · exact absurd h (by simp)
        · split at h
          · exact absurd h (by simp)
          · split at h
            · exact absurd h (by simp)
            · split at h
              · simp only [Option.some.injEq] at h
                rw [← h]
              · exact absurd h (by simp)
    · exact absurd h (by simp)

/-- Every branch-name-correction proposal keeps the original base,
`git`. -/
theorem tryGitBranch_some_base (priority : List String) (maxD : Nat)
    (branches : List String) (pathspecErr : Bool) (command : String)
    (args : List String) (inv : String × List String)
    (h : tryGitBranchCorrection priority maxD branches pathspecErr command
      args = some inv) : inv.1 = "git" := by
  unfold tryGitBranchCorrection at h
  split at h
  · exact absurd h (by simp)
  next hg =>
    have hcmd : command = "git" := by
      revert hg
      by_cases hc : command = "git" <;> simp [hc]
    subst hcmd
    split at h
    · split at h
      · exact absurd h (by simp)
      · split at h
        · exact absurd h (by simp)
        · split at h
          · exact absurd h (by simp)
          · split at h
            · exact absurd h (by simp)
            · split at h
              · simp only [Option.some.injEq] at h
                rw [← h]
              · exact absurd h (by simp)
    · exact absurd h (by simp)

set_option maxRecDepth 8192 in
/-- C2 (amended): the base-command strategy never proposes a denylisted
base under any configuration; with the allow-any-subcommands override
disabled (its default), the other strategies keep an original base that
is never denylisted either; and a mistyped base within distance 1 of a
denylisted PATH entry (`rn` near `rm`) yields no proposal, so the
original spawn error surfaces. -/
theorem corrections_never_denylisted :
    (∀ (pathCommands priority : List String) (maxD : Nat) (command : String)
      (args : List String) (inv : String × List String),
      tryBaseCorrection pathCommands priority maxD command args = some inv →
      DANGEROUS_BASE.contains inv.1 = false) ∧
    (∀ (priority : List String) (maxD : Nat) (command : String)
      (args : List String) (fromOutput : Option String)
      (inv : String × List String),
      trySubcommandCorrection false priority maxD command args fromOutput =
        some inv →
      DANGEROUS_BASE.contains inv.1 = false) ∧
    (∀ (priority scripts : List String) (maxD : Nat) (scriptErr : Bool)
      (command : String) (args : List String) (inv : String × List String),
      tryScriptCorrection priority maxD scripts scriptErr command args =
        some inv →
      DANGEROUS_BASE.contains inv.1 = false) ∧
    (∀ (priority branches : List String) (maxD : Nat) (pathspecErr : Bool)
      (command : String) (args : List String) (inv : String × List String),
      tryGitBranchCorrection priority maxD branches pathspecErr command
        args = some inv →
      DANGEROUS_BASE.contains inv.1 = false) ∧
    tryBaseCorrection ["rm"] DEFAULT_PRIORITY_BASES 1 "rn" [] = none ∧
    orchestrate { mkEnv ⟨none, "", "", some ⟨"ENOENT", "m"⟩⟩ with
        pathCommands := ["rm"] } "rn" [] = ⟨1, "", "m\n", [("rn", [])]⟩ := by
  refine ⟨?_, ?_, ?_, ?_, by decide, by decide⟩
  · intro pathCommands priority maxD command args inv h
    unfold tryBaseCorrection at h
    split at h
    · exact absurd h (by simp)
    · split at h
      · split at h
        next m d hcond =>
          simp only [Option.some.injEq] at h
          rw [← h]
          simpa using hcond.1
        · exact absurd h (by simp)
      · exact absurd h (by simp)
  · intro priority maxD command args fromOutput inv h
    rw [trySubcommand_some_base false priority maxD command args fromOutput
      inv h]
    exact safeBase_not_dangerous command
      (trySubcommand_some_safe priority maxD command args fromOutput inv h)
  · intro priority scripts maxD scriptErr command args inv h
    have hb := tryScript_some_base priority maxD scripts scriptErr command
      args inv h
    rw [hb.1]
    exact scriptBase_not_dangerous command hb.2
  · intro priority branches maxD pathspecErr command args inv h
    rw [tryGitBranch_some_base priority maxD branches pathspecErr command
      args inv h]
    decide

set_option maxRecDepth 8192 in
/-- Witness for the amended denylist claim at concrete safe
corrections. -/
theorem corrections_never_denylisted_witness :
    DANGEROUS_BASE.contains "npm" = false ∧
    DANGEROUS_BASE.contains "git" = false := by
  have h := corrections_never_denylisted
  refine ⟨?_, ?_⟩
  · have := h.2.1 DEFAULT_PRIORITY_BASES 1 "npm" ["instal"] none
      ("npm", ["install"]) (by decide)
    simpa using this
  · have := h.2.2.2.1 DEFAULT_PRIORITY_BASES ["main"] 1 true "git"
      ["checkout", "mian"] ("git", ["checkout", "main"]) (by decide)
    simpa using this

/-- C2 (counterexample): with the allow-any-subcommands override
enabled, a subcommand correction re-executes a denylisted base — the
proposed invocation's base command is `rm`. -/
theorem denylist_bypassed_with_override :
    trySubcommandCorrection true DEFAULT_PRIORITY_BASES 1 "rm" ["instal"]
      (some "install") = some ("rm", ["install"]) ∧
    DANGEROUS_BASE.contains "rm" = true := by decide

/-- The minimum of the distances from a pool to a target, capped at
`maxD + 1` — the value `bestDistance` tracks across the loop of
`findBestMatch`. -/
def poolMinDistance (pool : List String) (target : String) (maxD : Nat) :
    Nat :=
  pool.foldl (fun m c => min m (damerauLevenshtein c target maxD)) (maxD + 1)

/-- The pool members attaining the capped minimum distance, in pool
order — the `ties` list of `findBestMatch` at the end of its loop. -/
def tiedCandidates (pool : List String) (target : String) (maxD : Nat) :
    List String :=
  pool.filter
    (fun c => damerauLevenshtein c target maxD == poolMinDistance pool target
      maxD)

theorem foldl_min_le_init (f : String → Nat) (l : List String) (init : Nat) :
    l.foldl (fun m c => min m (f c)) init ≤ init := by
  induction l generalizing init with
  | nil => simp
  | cons c cs ih => exact le_trans (ih _) (Nat.min_le_left _ _)

theorem foldl_min_le_mem (f : String → Nat) (l : List String) (init : Nat)
    (x : String) (hx : x ∈ l) :
    l.foldl (fun m c => min m (f c)) init ≤ f x := by
  induction l generalizing init with
  | nil => cases hx
  | cons c cs ih =>
    rcases List.mem_cons.mp hx with rfl | hx
    · exact le_trans (foldl_min_le_init f cs _) (Nat.min_le_right _ _)
    · exact ih _ hx

/-- The loop invariant of `findBestMatch`: after folding `fbmStep` over
any prefix, `bestDistance` is the capped minimum over the processed
candidates, `ties` lists exactly the processed candidates attaining it,
and `best` is the first of them when the minimum beats the cap. -/
theorem fbm_loop_inv (target : String) (maxD : Nat) (l : List String) :
    ∀ (pre : List String) (s : FBMState),
    s.bestDistance =
      pre.foldl (fun m c => min m (damerauLevenshtein c target maxD))
        (maxD + 1) →
    s.ties = pre.filter
      (fun c => damerauLevenshtein c target maxD == s.bestDistance) →
    s.bestDistance ≤ maxD + 1 →
    s.best = (if s.bestDistance < maxD + 1 then s.ties.head? else none) →
    (s.bestDistance < maxD + 1 → s.ties ≠ []) →
    (l.foldl (fbmStep target maxD) s).bestDistance =
      (pre ++ l).foldl
        (fun m c => min m (damerauLevenshtein c target maxD)) (maxD + 1) ∧
    (l.foldl (fbmStep target maxD) s).ties = (pre ++ l).filter
      (fun c => damerauLevenshtein c target maxD ==
        (l.foldl (fbmStep target maxD) s).bestDistance) ∧
    (l.foldl (fbmStep target maxD) s).bestDistance ≤ maxD + 1 ∧
    (l.foldl (fbmStep target maxD) s).best =
      (if (l.foldl (fbmStep target maxD) s).bestDistance < maxD + 1 then
        (l.foldl (fbmStep target maxD) s).ties.head? else none) ∧
    ((l.foldl (fbmStep target maxD) s).bestDistance < maxD + 1 →
      (l.foldl (fbmStep target maxD) s).ties ≠ []) := by
  induction l with
  | nil =>
    intro pre s h1 h2 h3 h4 h5
    simpa using ⟨h1, h2, h3, h4, h5⟩
  | cons c cs ih =>
    intro pre s h1 h2 h3 h4 h5
    rw [List.foldl_cons]
    have happ : pre ++ c :: cs = (pre ++ [c]) ++ cs := by
      simp
    rw [happ]
    set d := damerauLevenshtein c target maxD with hd
    by_cases hlt : d < s.bestDistance
    · -- strict improvement: state resets to ⟨some c, d, [c]⟩
      have hs : fbmStep target maxD s c = ⟨some c, d, [c]⟩ := by
        unfold fbmStep
        rw [← hd, if_pos hlt]
      rw [hs]
      apply ih (pre ++ [c])
      · rw [List.foldl_append, ← h1]
        simp only [List.foldl_cons, List.foldl_nil]
        exact (Nat.min_eq_right (le_of_lt hlt)).symm
      · have hnone : pre.filter (fun x =>
            damerauLevenshtein x target maxD == d) = [] := by
          rw [List.filter_eq_nil_iff]
          intro x hx
          have := foldl_min_le_mem (fun y => damerauLevenshtein y target maxD)
            pre (maxD + 1) x hx
          rw [← h1] at this
          have : d < damerauLevenshtein x target maxD := lt_of_lt_of_le hlt this
          simp only [beq_iff_eq]
          omega
        simp only [List.filter_append, hnone, List.nil_append,
          List.filter_cons, List.filter_nil]
        simp
      · exact le_trans (le_of_lt hlt) h3
      · simp only []
        rw [if_pos (lt_of_lt_of_le hlt h3)]
        rfl
      · intro
        simp
    · by_cases heq : d = s.bestDistance
      · -- tie: appended to ties
        have hs : fbmStep target maxD s c =
            ⟨s.best, s.bestDistance, s.ties ++ [c]⟩ := by
          unfold fbmStep
          rw [← hd, if_neg hlt, if_pos heq]
        rw [hs]
        apply ih (pre ++ [c])
        · rw [List.foldl_append, ← h1]
          simp only [List.foldl_cons, List.foldl_nil]
          rw [← hd, heq]
          simp
        · simp only [List.filter_append, List.filter_cons, List.filter_nil]
          have hc : (damerauLevenshtein c target maxD == s.bestDistance) =
              true := by
            rw [← hd]
            simp [heq]
          rw [hc]
          simp only [List.nil_append]
          rw [← h2]
          simp
        · exact h3
        · simp only [h4]
          by_cases hcap : s.bestDistance < maxD + 1
          · rw [if_pos hcap, if_pos hcap]
            have hne := h5 hcap
            match s.ties, hne with
            | t :: ts, _ => simp
          · rw [if_neg hcap, if_neg hcap]
        · intro hcap
          exact fun habs => absurd (List.append_eq_nil.mp habs).2 (by simp)
      · -- worse: state unchanged
        have hs : fbmStep target maxD s c = s := by
          unfold fbmStep
          rw [← hd, if_neg hlt, if_neg heq]
        rw [hs]
        apply ih (pre ++ [c])
        · rw [List.foldl_append, ← h1]
          simp only [List.foldl_cons, List.foldl_nil]
          have hle : s.bestDistance ≤ d := by omega
          rw [← hd]
          exact (Nat.min_eq_left hle).symm
        · simp only [List.filter_append, List.filter_cons, List.filter_nil]
          have hc : (damerauLevenshtein c target maxD == s.bestDistance) =
              false := by
            rw [← hd]
            simp [heq]
          rw [hc]
          simpa using h2
        · exact h3
        · exact h4
        · exact h5

/-- C5 (amended): for a nonempty target, `findBestMatch` returns absent
when the capped minimum distance over the pool exceeds the bound;
returns the unique minimizer with its distance when exactly one
candidate attains an in-bound minimum and that candidate is nonempty;
and on a tie whose first tied candidate is nonempty returns the unique
tied candidate in the priority set when exactly one is, absent
otherwise.  (The source's falsy guards make it return absent for the
empty target, and also when the best candidate is the empty string.) -/
theorem findBestMatch_characterization (priority pool : List String)
    (target : String) (maxD : Nat) (htarget : target ≠ "") :
    (maxD < poolMinDistance pool target maxD →
      findBestMatch priority pool target maxD = none) ∧
    (∀ c, poolMinDistance pool target maxD ≤ maxD →
      tiedCandidates pool target maxD = [c] → c ≠ "" →
      findBestMatch priority pool target maxD =
        some (c, poolMinDistance pool target maxD)) ∧
    (poolMinDistance pool target maxD ≤ maxD →
      1 < (tiedCandidates pool target maxD).length →
      (tiedCandidates pool target maxD).head? ≠ some "" →
      findBestMatch priority pool target maxD =
        match (tiedCandidates pool target maxD).filter
            (fun v => priority.contains (normalizeToken v)) with
        | [p] => some (p, poolMinDistance pool target maxD)
        | _ => none) := by
  obtain ⟨h1, h2, h3, h4, h5⟩ := fbm_loop_inv target maxD pool []
    ⟨none, maxD + 1, []⟩ (by simp) (by simp) le_rfl (by simp) (by simp)
  simp only [List.nil_append] at h1 h2
  have hbd : (pool.foldl (fbmStep target maxD)
      ⟨none, maxD + 1, []⟩).bestDistance = poolMinDistance pool target maxD :=
    h1
  have hties : (pool.foldl (fbmStep target maxD)
      ⟨none, maxD + 1, []⟩).ties = tiedCandidates pool target maxD := by
    rw [h2, hbd]
    rfl
  refine ⟨?_, ?_, ?_⟩
  · intro hi
    unfold findBestMatch
    rw [if_neg htarget]
    dsimp only
    rw [if_pos]
    exact Or.inr (by rw [hbd]; exact hi)
  · intro c hle htied hcne
    have hbest : (pool.foldl (fbmStep target maxD)
        ⟨none, maxD + 1, []⟩).best = some c := by
      rw [h4, if_pos (by rw [hbd]; omega), hties, htied]
      rfl
    have hfalsy : strOptFalsy (pool.foldl (fbmStep target maxD)
        ⟨none, maxD + 1, []⟩).best = false := by
      rw [hbest]
      simp [strOptFalsy, hcne]
    unfold findBestMatch
    rw [if_neg htarget]
    dsimp only
    rw [if_neg (by simp [hfalsy, hbd]; omega)]
    rw [hties, htied]
    simp only [List.length_cons, List.length_nil]
    rw [if_neg (by omega)]
    rw [hbest, hbd]
  · intro hle hlen hheadne
    have htne : (pool.foldl (fbmStep target maxD)
        ⟨none, maxD + 1, []⟩).ties ≠ [] := by
      rw [hties]
      intro habs
      rw [habs] at hlen
      simp at hlen
    have hbesthead : (pool.foldl (fbmStep target maxD)
        ⟨none, maxD + 1, []⟩).best =
        (pool.foldl (fbmStep target maxD) ⟨none, maxD + 1, []⟩).ties.head? := by
      rw [h4, if_pos (by rw [hbd]; omega)]
    obtain ⟨t, ht⟩ : ∃ t, (pool.foldl (fbmStep target maxD)
        ⟨none, maxD + 1, []⟩).ties.head? = some t := by
      match (pool.foldl (fbmStep target maxD) ⟨none, maxD + 1, []⟩).ties,
          htne with
      | x :: xs, _ => exact ⟨x, rfl⟩
    have htnemp : t ≠ "" := by
      intro he
      apply hheadne
      rw [← hties, ht, he]
    have hne : ¬ (strOptFalsy (pool.foldl (fbmStep target maxD)
        ⟨none, maxD + 1, []⟩).best = true ∨
        maxD < (pool.foldl (fbmStep target maxD)
          ⟨none, maxD + 1, []⟩).bestDistance) := by
      rw [hbesthead, ht, hbd]
      simp [strOptFalsy, htnemp]
      omega
    unfold findBestMatch
    rw [if_neg htarget]
    dsimp only
    rw [if_neg hne]
    rw [hties]
    rw [if_pos hlen]
    simp only [hbd]

/-- Witness for the matcher characterization: the tie between `git` and
`gt` at distance 1 from `gti` is resolved by the priority set containing
exactly `git`. -/
theorem findBestMatch_characterization_witness :
    findBestMatch ["git"] ["git", "gt"] "gti" 1 = some ("git", 1) ∧
    findBestMatch [] ["git", "gt"] "gti" 1 = none := by
  have h1 := (findBestMatch_characterization ["git"] ["git", "gt"] "gti" 1
    (by decide)).2.2 (by decide) (by decide) (by decide)
  have h2 := (findBestMatch_characterization [] ["git", "gt"] "gti" 1
    (by decide)).2.2 (by decide) (by decide) (by decide)
  rw [h1, h2]
  exact ⟨by decide, by decide⟩

/-- C5 (counterexample): the claim fails as stated — for the empty
target the unique minimizer is not returned (`findBestMatch` discards an
empty target), an empty-string candidate that is the unique in-bound
minimizer of a nonempty target is also discarded (the `!best` falsy
guard), and in the spec's own illustrative scenario `got` is at
distance 2 from `gti`, not 1, so `git` is the unique in-bound minimizer
and is returned even when the priority set contains neither tied
candidate. -/
theorem findBestMatch_counterexample :
    poolMinDistance [""] "" 1 = 0 ∧
    tiedCandidates [""] "" 1 = [""] ∧
    findBestMatch [] [""] "" 1 = none ∧
    damerauLevenshtein "" "x" 1 = 1 ∧
    tiedCandidates [""] "x" 1 = [""] ∧
    findBestMatch [] [""] "x" 1 = none ∧
    damerauLevenshtein "got" "gti" 1 = 2 ∧
    damerauLevenshtein "git" "gti" 1 = 1 ∧
    findBestMatch [] ["got", "git"] "gti" 1 = some ("git", 1) := by decide

theorem dpRec_zero_left (aN bN : List Char) (j : Nat) :
    dpRec aN bN 0 j = j := by
  rw [dpRec]

theorem dpRec_zero_right (aN bN : List Char) (i : Nat) :
    dpRec aN bN i 0 = i := by
  cases i with
  | zero => rw [dpRec]
  | succ i => rw [dpRec]

/-- The unfolded recurrence at an interior cell. -/
theorem dpRec_succ_eq (aN bN : List Char) (i j : Nat) :
    dpRec aN bN (i + 1) (j + 1) =
      (if 0 < i ∧ 0 < j ∧ aN.getD i 'a' = bN.getD (j - 1) 'a' ∧
          aN.getD (i - 1) 'a' = bN.getD j 'a' then
        min (min (dpRec aN bN i (j + 1) + 1)
          (min (dpRec aN bN (i + 1) j + 1)
            (dpRec aN bN i j +
              (if aN.getD i 'a' = bN.getD j 'a' then 0 else 1))))
          (dpRec aN bN (i - 1) (j - 1) + 1)
      else
        min (dpRec aN bN i (j + 1) + 1)
          (min (dpRec aN bN (i + 1) j + 1)
            (dpRec aN bN i j +
              (if aN.getD i 'a' = bN.getD j 'a' then 0 else 1)))) := by
  rw [dpRec]

theorem dpRec_le_del (aN bN : List Char) (i j : Nat) :
    dpRec aN bN (i + 1) (j + 1) ≤ dpRec aN bN i (j + 1) + 1 := by
  rw [dpRec_succ_eq]
  split <;> split <;> omega

theorem dpRec_le_ins (aN bN : List Char) (i j : Nat) :
    dpRec aN bN (i + 1) (j + 1) ≤ dpRec aN bN (i + 1) j + 1 := by
  rw [dpRec_succ_eq]
  split <;> split <;> omega

theorem dpRec_le_sub (aN bN : List Char) (i j : Nat) :
    dpRec aN bN (i + 1) (j + 1) ≤ dpRec aN bN i j + 1 := by
  rw [dpRec_succ_eq]
  split <;> split <;> omega

/-- A lower bound transfers to an interior cell once it is below all
four branch values of the recurrence. -/
theorem le_dpRec_succ (aN bN : List Char) (i j x : Nat)
    (h1 : x ≤ dpRec aN bN i (j + 1) + 1)
    (h2 : x ≤ dpRec aN bN (i + 1) j + 1)
    (h3 : x ≤ dpRec aN bN i j)
    (h4 : x ≤ dpRec aN bN (i - 1) (j - 1) + 1) :
    x ≤ dpRec aN bN (i + 1) (j + 1) := by
  rw [dpRec_succ_eq]
  split <;> split <;> omega

theorem dpRec_fwdH (aN bN : List Char) (i j : Nat) :
    dpRec aN bN i (j + 1) ≤ dpRec aN bN i j + 1 := by
  cases i with
  | zero => rw [dpRec_zero_left, dpRec_zero_left]
  | succ i => exact dpRec_le_ins aN bN i j

theorem dpRec_fwdV (aN bN : List Char) (i j : Nat) :
    dpRec aN bN (i + 1) j ≤ dpRec aN bN i j + 1 := by
  cases j with
  | zero => rw [dpRec_zero_right, dpRec_zero_right]
  | succ j => exact dpRec_le_del aN bN i j

/-- Forward diagonal Lipschitz bound, index-shifted form. -/
theorem dpRec_fwdD (aN bN : List Char) (i j : Nat) :
    dpRec aN bN i j ≤ dpRec aN bN (i - 1) (j - 1) + 1 := by
  match i, j with
  | 0, j =>
    rw [dpRec_zero_left, dpRec_zero_left]
    omega
  | i + 1, 0 =>
    rw [dpRec_zero_right, dpRec_zero_right]
    omega
  | i + 1, j + 1 =>
    simpa using dpRec_le_sub aN bN i j

/-- Removing the last character of either token lowers the distance by
at most one. -/
theorem dpRec_revV (aN bN : List Char) (i : Nat) :
    ∀ j, dpRec aN bN i j ≤ dpRec aN bN (i + 1) j + 1
  | 0 => by
    rw [dpRec_zero_right, dpRec_zero_right]
    omega
  | j + 1 => by
    have hfH : dpRec aN bN i (j + 1) ≤ dpRec aN bN i j + 1 :=
      dpRec_fwdH aN bN i j
    have hIH : dpRec aN bN i j ≤ dpRec aN bN (i + 1) j + 1 :=
      dpRec_revV aN bN i j
    have hfD : dpRec aN bN i j ≤ dpRec aN bN (i - 1) (j - 1) + 1 :=
      dpRec_fwdD aN bN i j
    rw [dpRec_succ_eq]
    split <;> split <;> omega

theorem dpRec_revH (aN bN : List Char) (j : Nat) :
    ∀ i, dpRec aN bN i j ≤ dpRec aN bN i (j + 1) + 1
  | 0 => by
    rw [dpRec_zero_left, dpRec_zero_left]
    omega
  | i + 1 => by
    have hfV : dpRec aN bN (i + 1) j ≤ dpRec aN bN i j + 1 :=
      dpRec_fwdV aN bN i j
    have hIH : dpRec aN bN i j ≤ dpRec aN bN i (j + 1) + 1 :=
      dpRec_revH aN bN j i
    have hfD : dpRec aN bN i j ≤ dpRec aN bN (i - 1) (j - 1) + 1 :=
      dpRec_fwdD aN bN i j
    rw [dpRec_succ_eq]
    split <;> split <;> omega

/-- The table is monotone along diagonals. -/
theorem dpRec_diagMono (aN bN : List Char) (i j : Nat) :
    dpRec aN bN i j ≤ dpRec aN bN (i + 1) (j + 1) :=
  le_dpRec_succ aN bN i j (dpRec aN bN i j)
    (dpRec_revH aN bN j i) (dpRec_revV aN bN i j) le_rfl
    (dpRec_fwdD aN bN i j)

theorem dpRec_pred_le (aN bN : List Char) (x y : Nat) :
    dpRec aN bN (x - 1) (y - 1) ≤ dpRec aN bN x y := by
  match x, y with
  | 0, y =>
    rw [dpRec_zero_left, dpRec_zero_left]
    omega
  | x + 1, 0 =>
    rw [dpRec_zero_right, dpRec_zero_right]
    omega
  | x + 1, y + 1 =>
    simpa using dpRec_diagMono aN bN x y

theorem dpRec_diag_le (aN bN : List Char) (m n : Nat) :
    ∀ k, dpRec aN bN (m - k) (n - k) ≤ dpRec aN bN m n
  | 0 => le_rfl
  | k + 1 => by
    have h1 : m - (k + 1) = (m - k) - 1 := by omega
    have h2 : n - (k + 1) = (n - k) - 1 := by omega
    rw [h1, h2]
    exact le_trans (dpRec_pred_le aN bN (m - k) (n - k))
      (dpRec_diag_le aN bN m n k)

/-- Every row of the table has a small first-column cell: `dp[r][1] ≤ r`
for `r ≥ 1`. -/
theorem dpRec_col1_le (aN bN : List Char) (r : Nat) :
    dpRec aN bN (r + 1) 1 ≤ r + 1 := by
  have h := dpRec_le_sub aN bN r 0
  rw [dpRec_zero_right] at h
  simpa using h

/-- Transpose symmetry of the full (unpruned) dynamic-programming
table. -/
theorem dpRec_symm_aux (aN bN : List Char) :
    ∀ (fuel : Nat) (i j : Nat), i + j ≤ fuel →
      dpRec aN bN i j = dpRec bN aN j i := by
  intro fuel
  induction fuel with
  | zero =>
    intro i j h
    have hi : i = 0 := by omega
    have hj : j = 0 := by omega
    subst hi
    subst hj
    rw [dpRec_zero_left, dpRec_zero_left]
  | succ fuel ih =>
    intro i j h
    match i, j with
    | 0, j => rw [dpRec_zero_left, dpRec_zero_right]
    | i + 1, 0 => rw [dpRec_zero_right, dpRec_zero_left]
    | i + 1, j + 1 =>
      have e1 : dpRec aN bN i (j + 1) = dpRec bN aN (j + 1) i :=
        ih i (j + 1) (by omega)
      have e2 : dpRec aN bN (i + 1) j = dpRec bN aN j (i + 1) :=
        ih (i + 1) j (by omega)
      have e3 : dpRec aN bN i j = dpRec bN aN j i := ih i j (by omega)
      have e4 : dpRec aN bN (i - 1) (j - 1) = dpRec bN aN (j - 1) (i - 1) := by
        apply ih
        omega
      have hcost : (if aN.getD i 'a' = bN.getD j 'a' then 0 else 1) =
          (if bN.getD j 'a' = aN.getD i 'a' then 0 else 1) := by
        by_cases hx : aN.getD i 'a' = bN.getD j 'a'
        · rw [if_pos hx, if_pos hx.symm]
        · rw [if_neg hx, if_neg (fun hy => hx hy.symm)]
      have hguard : (0 < i ∧ 0 < j ∧ aN.getD i 'a' = bN.getD (j - 1) 'a' ∧
          aN.getD (i - 1) 'a' = bN.getD j 'a') ↔
          (0 < j ∧ 0 < i ∧ bN.getD j 'a' = aN.getD (i - 1) 'a' ∧
            bN.getD (j - 1) 'a' = aN.getD i 'a') := by
        constructor
        · rintro ⟨a1, a2, a3, a4⟩
          exact ⟨a2, a1, a4.symm, a3.symm⟩
        · rintro ⟨a1, a2, a3, a4⟩
          exact ⟨a2, a1, a4.symm, a3.symm⟩
      rw [dpRec_succ_eq aN bN i j, dpRec_succ_eq bN aN j i, e1, e2, e3, e4,
        hcost]
      by_cases hg : 0 < i ∧ 0 < j ∧ aN.getD i 'a' = bN.getD (j - 1) 'a' ∧
          aN.getD (i - 1) 'a' = bN.getD j 'a'
      · rw [if_pos hg]
        have hg2 := hguard.mp hg
        have hg2' : 0 < j ∧ 0 < i ∧ bN.getD j 'a' = aN.getD (i - 1) 'a' ∧
            bN.getD (j - 1) 'a' = aN.getD i 'a' := hg2
        rw [if_pos hg2']
        omega
      · rw [if_neg hg]
        have hg2 : ¬ (0 < j ∧ 0 < i ∧ bN.getD j 'a' = aN.getD (i - 1) 'a' ∧
            bN.getD (j - 1) 'a' = aN.getD i 'a') :=
          fun hx => hg (hguard.mpr hx)
        rw [if_neg hg2]
        omega

theorem dpRec_symm (aN bN : List Char) (i j : Nat) :
    dpRec aN bN i j = dpRec bN aN j i :=
  dpRec_symm_aux aN bN (i + j) i j le_rfl

/-- Row `r` of the dynamic-programming table, as the list the iterative
implementation carries. -/
def dpRow (aN bN : List Char) (r : Nat) : List Nat :=
  (List.range (bN.length + 1)).map (dpRec aN bN r)

theorem dpRow_getD (aN bN : List Char) (r j : Nat) (hj : j ≤ bN.length) :
    (dpRow aN bN r).getD j 0 = dpRec aN bN r j := by
  unfold dpRow
  rw [List.getD_eq_getElem?_getD, List.getElem?_map,
    List.getElem?_range (by omega)]
  rfl

theorem dpRow_zero (aN bN : List Char) :
    dpRow aN bN 0 = List.range (bN.length + 1) := by
  unfold dpRow
  rw [List.map_id'' (dpRec_zero_left aN bN)]

theorem dpRow_cons (aN bN : List Char) (r : Nat) :
    dpRow aN bN r = r :: (List.range' 1 bN.length).map (dpRec aN bN r) := by
  unfold dpRow
  rw [List.range_eq_range', List.range'_succ, List.map_cons,
    dpRec_zero_right]

/-- A single iterative cell agrees with the recurrence when fed the two
previous table rows. -/
theorem dlCell_eq (aN bN : List Char) (i j : Nat) (hi : 1 ≤ i)
    (hj : 1 ≤ j) (hjn : j ≤ bN.length) :
    dlCell aN bN (dpRow aN bN (i - 2)) (dpRow aN bN (i - 1)) i j
      (dpRec aN bN i (j - 1)) = dpRec aN bN i j := by
  obtain ⟨i0, rfl⟩ : ∃ i0, i = i0 + 1 := ⟨i - 1, by omega⟩
  obtain ⟨j0, rfl⟩ : ∃ j0, j = j0 + 1 := ⟨j - 1, by omega⟩
  unfold dlCell
  dsimp only
  have e1 : i0 + 1 - 1 = i0 := by omega
  have e2 : i0 + 1 - 2 = i0 - 1 := by omega
  have e3 : j0 + 1 - 1 = j0 := by omega
  have e4 : j0 + 1 - 2 = j0 - 1 := by omega
  rw [e1, e2, e3, e4]
  rw [dpRow_getD aN bN i0 (j0 + 1) (by omega),
    dpRow_getD aN bN i0 j0 (by omega),
    dpRow_getD aN bN (i0 - 1) (j0 - 1) (by omega),
    dpRec_succ_eq aN bN i0 j0]
  have hgeq : (1 < i0 + 1 ∧ 1 < j0 + 1 ∧
      aN.getD i0 'a' = bN.getD (j0 - 1) 'a' ∧
      aN.getD (i0 - 1) 'a' = bN.getD j0 'a') ↔
      (0 < i0 ∧ 0 < j0 ∧ aN.getD i0 'a' = bN.getD (j0 - 1) 'a' ∧
        aN.getD (i0 - 1) 'a' = bN.getD j0 'a') := by
    constructor <;> rintro ⟨u1, u2, u3, u4⟩ <;>
      exact ⟨by omega, by omega, u3, u4⟩
  simp only [hgeq]

/-- The iterative inner loop produces exactly the table cells of the
current row. -/
theorem dlRowCells_eq (aN bN : List Char) (i : Nat) (hi : 1 ≤ i) :
    ∀ (k j left : Nat), 1 ≤ j → j + k ≤ bN.length + 1 →
      left = dpRec aN bN i (j - 1) →
      dlRowCells aN bN (dpRow aN bN (i - 2)) (dpRow aN bN (i - 1)) i j left
        k = (List.range' j k).map (dpRec aN bN i)
  | 0, j, left, _, _, _ => by
    rw [dlRowCells]
    rfl
  | k + 1, j, left, hj, hbound, hleft => by
    rw [dlRowCells]
    subst hleft
    rw [dlCell_eq aN bN i j hi hj (by omega)]
    rw [List.range'_succ, List.map_cons]
    congr 1
    have e : j = (j + 1) - 1 := by omega
    rw [dlRowCells_eq aN bN i hi k (j + 1) (dpRec aN bN i j) (by omega)
      (by omega) (by rw [← e])]

/-- A fold of `min` stays above `N` exactly when the seed and every
element do. -/
theorem foldl_min_lt_iff (N : Nat) :
    ∀ (l : List Nat) (a : Nat),
      (N < l.foldl min a ↔ N < a ∧ ∀ x ∈ l, N < x)
  | [], a => by simp
  | x :: xs, a => by
    rw [List.foldl_cons, foldl_min_lt_iff N xs (min a x)]
    constructor
    · rintro ⟨h1, h2⟩
      refine ⟨by omega, fun y hy => ?_⟩
      rcases List.mem_cons.mp hy with rfl | hy
      · omega
      · exact h2 y hy
    · rintro ⟨h1, h2⟩
      refine ⟨by have := h2 x (List.mem_cons_self x xs); omega,
        fun y hy => h2 y (List.mem_cons_of_mem x hy)⟩

/-- The outer loop of `damerauLevenshtein`: starting from row `i - 1`,
it returns `N + 1` precisely when some remaining row has all its cells
above `N`, and the final table cell otherwise. -/
theorem dlOuter_spec (aN bN : List Char) (N : Nat) :
    ∀ (rest : List Char) (i : Nat), 1 ≤ i →
      i - 1 + rest.length = aN.length →
      ((∃ r, i ≤ r ∧ r ≤ aN.length ∧ ∀ j, 1 ≤ j → j ≤ bN.length →
          N < dpRec aN bN r j) →
        dlOuter aN bN N i rest (dpRow aN bN (i - 2)) (dpRow aN bN (i - 1)) =
          N + 1) ∧
      ((¬ ∃ r, i ≤ r ∧ r ≤ aN.length ∧ ∀ j, 1 ≤ j → j ≤ bN.length →
          N < dpRec aN bN r j) →
        dlOuter aN bN N i rest (dpRow aN bN (i - 2)) (dpRow aN bN (i - 1)) =
          dpRec aN bN aN.length bN.length) := by
  intro rest
  induction rest with
  | nil =>
    intro i hi hlen
    simp only [List.length_nil, Nat.add_zero] at hlen
    constructor
    · rintro ⟨r, hir, hrm, _⟩
      omega
    · intro _
      rw [dlOuter]
      rw [dpRow_getD aN bN (i - 1) bN.length le_rfl, hlen]
  | cons c cs ih =>
    intro i hi hlen
    simp only [List.length_cons] at hlen
    have him : i ≤ aN.length := by omega
    rw [dlOuter]
    have hcells : dlRowCells aN bN (dpRow aN bN (i - 2)) (dpRow aN bN (i - 1))
        i 1 i bN.length = (List.range' 1 bN.length).map (dpRec aN bN i) := by
      apply dlRowCells_eq aN bN i hi bN.length 1 i le_rfl (by omega)
      rw [show (1 : Nat) - 1 = 0 from rfl, dpRec_zero_right]
    rw [hcells]
    have hmem : ∀ x, x ∈ (List.range' 1 bN.length).map (dpRec aN bN i) ↔
        ∃ j, 1 ≤ j ∧ j ≤ bN.length ∧ x = dpRec aN bN i j := by
      intro x
      simp only [List.mem_map, List.mem_range'_1]
      constructor
      · rintro ⟨j, ⟨hj1, hj2⟩, rfl⟩
        exact ⟨j, hj1, by omega, rfl⟩
      · rintro ⟨j, hj1, hj2, rfl⟩
        exact ⟨j, ⟨hj1, by omega⟩, rfl⟩
    by_cases hrow : ∀ j, 1 ≤ j → j ≤ bN.length → N < dpRec aN bN i j
    · have hmin : N < ((List.range' 1 bN.length).map
          (dpRec aN bN i)).foldl min (N + 1) := by
        rw [foldl_min_lt_iff]
        refine ⟨by omega, fun x hx => ?_⟩
        obtain ⟨j, hj1, hj2, rfl⟩ := (hmem x).mp hx
        exact hrow j hj1 hj2
      rw [if_pos hmin]
      constructor
      · intro _
        rfl
      · intro hnex
        exact absurd ⟨i, le_rfl, him, hrow⟩ hnex
    · have hmin : ¬ (N < ((List.range' 1 bN.length).map
          (dpRec aN bN i)).foldl min (N + 1)) := by
        rw [foldl_min_lt_iff]
        push_neg at hrow
        obtain ⟨j, hj1, hj2, hjle⟩ := hrow
        intro ⟨_, hall⟩
        have := hall (dpRec aN bN i j) ((hmem _).mpr ⟨j, hj1, hj2, rfl⟩)
        omega
      rw [if_neg hmin]
      have hcons : (i :: (List.range' 1 bN.length).map (dpRec aN bN i)) =
          dpRow aN bN i := (dpRow_cons aN bN i).symm
      rw [hcons]
      have hi2 : 1 ≤ i + 1 := by omega
      have hlen2 : i + 1 - 1 + cs.length = aN.length := by omega
      have hspec := ih (i + 1) hi2 hlen2
      have e1 : i + 1 - 2 = i - 1 := rfl
      have e2 : i + 1 - 1 = i := rfl
      rw [e1, e2] at hspec
      constructor
      · rintro ⟨r, hir, hrm, hall⟩
        have hri : r ≠ i := by
          intro hre
          subst hre
          exact hrow hall
        exact hspec.1 ⟨r, by omega, hrm, hall⟩
      · intro hnex
        apply hspec.2
        rintro ⟨r, hir, hrm, hall⟩
        exact hnex ⟨r, by omega, hrm, hall⟩

/-- Postcondition of `findBestMatch`: a returned match carries its own
distance to the target, which is within the bound. -/
theorem findBestMatch_some (priority pool : List String) (target : String)
    (maxD : Nat) (c : String) (d : Nat)
    (h : findBestMatch priority pool target maxD = some (c, d)) :
    damerauLevenshtein c target maxD = d ∧ d ≤ maxD := by
  unfold findBestMatch at h
  split at h
  · exact absurd h (by simp)
  next htarget =>
    obtain ⟨h1, h2, h3, h4, h5⟩ := fbm_loop_inv target maxD pool []
      ⟨none, maxD + 1, []⟩ (by simp) (by simp) le_rfl (by simp) (by simp)
    simp only [List.nil_append] at h1 h2
    dsimp only at h
    split at h
    · exact absurd h (by simp)
    next hguard =>
      have hbdle : (pool.foldl (fbmStep target maxD)
          ⟨none, maxD + 1, []⟩).bestDistance ≤ maxD := by
        rcases not_or.mp hguard with ⟨_, hlt⟩
        omega
      split at h
      next hlen =>
        split at h
        next p hp =>
          simp only [Option.some.injEq, Prod.mk.injEq] at h
          obtain ⟨hc, hdd⟩ := h
          have hmem : p ∈ (pool.foldl (fbmStep target maxD)
              ⟨none, maxD + 1, []⟩).ties := by
            have hpf : p ∈ (pool.foldl (fbmStep target maxD)
                ⟨none, maxD + 1, []⟩).ties.filter
                (fun v => priority.contains (normalizeToken v)) := by
              rw [hp]
              simp
            exact List.mem_of_mem_filter hpf
          rw [h2] at hmem
          have hdist := List.of_mem_filter hmem
          simp only [beq_iff_eq] at hdist
          refine ⟨by rw [← hc, hdist, hdd], by rw [← hdd]; exact hbdle⟩
        next => exact absurd h (by simp)
      next hlen =>
        split at h
        next b hb =>
          have hbne : (pool.foldl (fbmStep target maxD)
              ⟨none, maxD + 1, []⟩).ties.head? = some b := by
            rw [h4, if_pos (by omega)] at hb
            exact hb
          have hmem : b ∈ (pool.foldl (fbmStep target maxD)
              ⟨none, maxD + 1, []⟩).ties := List.mem_of_mem_head? hbne
          rw [h2] at hmem
          have hdist := List.of_mem_filter hmem
          simp only [beq_iff_eq] at hdist
          simp only [Option.some.injEq, Prod.mk.injEq] at h
          obtain ⟨hc, hdd⟩ := h
          subst hc
          exact ⟨by rw [hdist, hdd], by rw [← hdd]; exact hbdle⟩
        next => exact absurd h (by simp)

/-- C6: a subcommand-correction attempt whose guards pass prefers an
in-bound output-parsed suggestion over the dictionary best match, falls
back to the dictionary match otherwise, only ever proposes a replacement
that differs from the attempted subcommand and is within the distance
bound, and keeps the original base with the trailing arguments preserved
in order. -/
theorem subcommand_correction_choice (allowAny : Bool)
    (priority : List String) (maxD : Nat) (command attempted : String)
    (restArgs : List String) (fromOutput : Option String)
    (hguard : SAFE_SUBCOMMAND_BASES.contains command = true ∨
      allowAny = true)
    (hdash : strStartsWith attempted "-" = false)
    (hrisky : hasRiskyArgs (attempted :: restArgs) = false) :
    (∀ s, fromOutput = some s →
      damerauLevenshtein s attempted maxD ≤ maxD → s ≠ attempted →
      trySubcommandCorrection allowAny priority maxD command
        (attempted :: restArgs) fromOutput = some (command, s :: restArgs)) ∧
    (∀ c d,
      (fromOutput = none ∨ ∀ s, fromOutput = some s →
        maxD < damerauLevenshtein s attempted maxD) →
      findBestMatch priority (COMMON_SUBCOMMANDS command) attempted maxD =
        some (c, d) →
      c ≠ attempted →
      trySubcommandCorrection allowAny priority maxD command
        (attempted :: restArgs) fromOutput = some (command, c :: restArgs)) ∧
    (∀ inv, trySubcommandCorrection allowAny priority maxD command
        (attempted :: restArgs) fromOutput = some inv →
      inv.1 = command ∧ ∃ ch, inv.2 = ch :: restArgs ∧ ch ≠ attempted ∧
        damerauLevenshtein ch attempted maxD ≤ maxD) := by
  have hg : ¬ (¬ SAFE_SUBCOMMAND_BASES.contains command = true ∧
      ¬ allowAny = true) :=
    fun hcon => hguard.elim hcon.1 hcon.2
  have hstep : trySubcommandCorrection allowAny priority maxD command
      (attempted :: restArgs) fromOutput =
      (match (if outputDistanceOf fromOutput attempted maxD ≤ maxD then
          fromOutput
        else (findBestMatch priority (COMMON_SUBCOMMANDS command) attempted
          maxD).map Prod.fst) with
      | none => none
      | some c =>
        if c ≠ attempted ∧ damerauLevenshtein c attempted maxD ≤ maxD then
          some (command, c :: restArgs)
        else none) := by
    unfold trySubcommandCorrection
    rw [if_neg hg]
    simp only [hdash, Bool.false_eq_true, if_false, hrisky]
  refine ⟨?_, ?_, ?_⟩
  · intro s hs hle hne
    subst hs
    have hcond : outputDistanceOf (some s) attempted maxD ≤ maxD := by
      simpa [outputDistanceOf] using hle
    rw [hstep, if_pos hcond]
    show (if s ≠ attempted ∧ damerauLevenshtein s attempted maxD ≤ maxD
      then some (command, s :: restArgs) else none) =
      some (command, s :: restArgs)
    rw [if_pos ⟨hne, hle⟩]
  · intro c d houtput hdict hne
    obtain ⟨hdist, hdle⟩ := findBestMatch_some priority
      (COMMON_SUBCOMMANDS command) attempted maxD c d hdict
    have hout : ¬ (outputDistanceOf fromOutput attempted maxD ≤ maxD) := by
      cases hfo : fromOutput with
      | none =>
        simp only [outputDistanceOf]
        omega
      | some s =>
        rcases houtput with hnone | hgt
        · rw [hnone] at hfo
          exact absurd hfo (by simp)
        · simp only [outputDistanceOf]
          have hgt2 := hgt s hfo
          omega
    rw [hstep, if_neg hout, hdict]
    show (if c ≠ attempted ∧ damerauLevenshtein c attempted maxD ≤ maxD
      then some (command, c :: restArgs) else none) =
      some (command, c :: restArgs)
    rw [if_pos ⟨hne, by rw [hdist]; exact hdle⟩]
  · intro inv h
    rw [hstep] at h
    split at h
    · exact absurd h (by simp)
    next =>
      rename_i cc hceq
      split at h
      next hcond =>
        simp only [Option.some.injEq] at h
        exact ⟨by rw [← h], cc, by rw [← h], hcond.1, hcond.2⟩
      · exact absurd h (by simp)

set_option maxRecDepth 8192 in
/-- Witness for the subcommand-correction claim at the spec's scenario:
`git commmit -m msg` is corrected to `git commit -m msg` via the static
dictionary, trailing arguments preserved. -/
theorem subcommand_correction_choice_witness :
    trySubcommandCorrection false DEFAULT_PRIORITY_BASES 1 "git"
      ["commmit", "-m", "msg"] none =
      some ("git", ["commit", "-m", "msg"]) ∧
    trySubcommandCorrection false DEFAULT_PRIORITY_BASES 1 "git"
      ["commmit"] (some "commit") = some ("git", ["commit"]) := by
  constructor
  · exact (subcommand_correction_choice false DEFAULT_PRIORITY_BASES 1 "git"
      "commmit" ["-m", "msg"] none (by decide) (by decide) (by decide)).2.1
      "commit" 1 (Or.inl rfl) (by decide) (by decide)
  · exact (subcommand_correction_choice false DEFAULT_PRIORITY_BASES 1 "git"
      "commmit" [] (some "commit") (by decide) (by decide) (by decide)).1
      "commit" rfl (by decide) (by decide)

/-- When the true table distance is within the bound (and the length
guard admits it), no row of the dynamic program can trigger the
early-exit prune: every row keeps an in-band cell at most `N`. -/
theorem dpRec_no_prune (aN bN : List Char) (N : Nat) (hn : 1 ≤ bN.length)
    (hm : aN.length ≤ bN.length + N)
    (hD : dpRec aN bN aN.length bN.length ≤ N) :
    ¬ ∃ r, 1 ≤ r ∧ r ≤ aN.length ∧ ∀ j, 1 ≤ j → j ≤ bN.length →
      N < dpRec aN bN r j := by
  rintro ⟨r, hr1, hrm, hall⟩
  by_cases hcase : aN.length - r < bN.length
  · have hk := dpRec_diag_le aN bN aN.length bN.length (aN.length - r)
    have e1 : aN.length - (aN.length - r) = r := by omega
    rw [e1] at hk
    have hj1 : 1 ≤ bN.length - (aN.length - r) := by omega
    have hjn : bN.length - (aN.length - r) ≤ bN.length := by omega
    have hlt := hall (bN.length - (aN.length - r)) hj1 hjn
    omega
  · obtain ⟨r0, rfl⟩ : ∃ r0, r = r0 + 1 := ⟨r - 1, by omega⟩
    have hc1 := dpRec_col1_le aN bN r0
    have hlt := hall 1 le_rfl hn
    omega

/-- C8 (amended): the bounded distance is symmetric up to the early-exit
cap — clamping both directions at `N + 1` gives equal values for
nonempty tokens; in particular any in-bound distance is symmetric. -/
theorem damerau_clamped_symmetric (a b : String) (N : Nat)
    (ha : a ≠ "") (hb : b ≠ "") :
    min (damerauLevenshtein a b N) (N + 1) =
      min (damerauLevenshtein b a N) (N + 1) := by
  have hadata : a.data ≠ [] := by
    intro hd
    apply ha
    cases a
    simp_all
  have hbdata : b.data ≠ [] := by
    intro hd
    apply hb
    cases b
    simp_all
  have ham : 1 ≤ (a.data.map Char.toLower).length := by
    rw [List.length_map]
    exact List.length_pos.mpr hadata
  have hbm : 1 ≤ (b.data.map Char.toLower).length := by
    rw [List.length_map]
    exact List.length_pos.mpr hbdata
  unfold damerauLevenshtein
  dsimp only
  by_cases heq : a.data.map Char.toLower = b.data.map Char.toLower
  · rw [if_pos heq, if_pos heq.symm]
  · have heqba : ¬ (b.data.map Char.toLower = a.data.map Char.toLower) :=
      fun h => heq h.symm
    rw [if_neg heq, if_neg heqba]
    have hmaxmin : max (b.data.map Char.toLower).length
        (a.data.map Char.toLower).length -
        min (b.data.map Char.toLower).length
          (a.data.map Char.toLower).length =
        max (a.data.map Char.toLower).length
          (b.data.map Char.toLower).length -
        min (a.data.map Char.toLower).length
          (b.data.map Char.toLower).length := by
      rw [Nat.max_comm, Nat.min_comm]
    by_cases hlen : N < max (a.data.map Char.toLower).length
        (b.data.map Char.toLower).length -
        min (a.data.map Char.toLower).length (b.data.map Char.toLower).length
    · have hlenba : N < max (b.data.map Char.toLower).length
          (a.data.map Char.toLower).length -
          min (b.data.map Char.toLower).length
            (a.data.map Char.toLower).length := by
        rw [hmaxmin]
        exact hlen
      rw [if_pos hlen, if_pos hlenba]
    · have hlenba : ¬ (N < max (b.data.map Char.toLower).length
          (a.data.map Char.toLower).length -
          min (b.data.map Char.toLower).length
            (a.data.map Char.toLower).length) := by
        rw [hmaxmin]
        exact hlen
      rw [if_neg hlen, if_neg hlenba]
      have hrow0a : List.range ((b.data.map Char.toLower).length + 1) =
          dpRow (a.data.map Char.toLower) (b.data.map Char.toLower) 0 :=
        (dpRow_zero _ _).symm
      have hrow0b : List.range ((a.data.map Char.toLower).length + 1) =
          dpRow (b.data.map Char.toLower) (a.data.map Char.toLower) 0 :=
        (dpRow_zero _ _).symm
      rw [hrow0a, hrow0b]
      have hsa := dlOuter_spec (a.data.map Char.toLower)
        (b.data.map Char.toLower) N (a.data.map Char.toLower) 1 le_rfl
        (by simp)
      have hsb := dlOuter_spec (b.data.map Char.toLower)
        (a.data.map Char.toLower) N (b.data.map Char.toLower) 1 le_rfl
        (by simp)
      have hsymmD : dpRec (b.data.map Char.toLower) (a.data.map Char.toLower)
          (b.data.map Char.toLower).length (a.data.map Char.toLower).length =
          dpRec (a.data.map Char.toLower) (b.data.map Char.toLower)
            (a.data.map Char.toLower).length
            (b.data.map Char.toLower).length :=
        (dpRec_symm _ _ _ _).symm
      have hd1 : (a.data.map Char.toLower).length ≤
          (b.data.map Char.toLower).length + N := by
        clear hsa hsb hsymmD hrow0a hrow0b heq heqba ha hb hadata hbdata
          hmaxmin hlenba
        omega
      have hd2 : (b.data.map Char.toLower).length ≤
          (a.data.map Char.toLower).length + N := by
        clear hsa hsb hsymmD hrow0a hrow0b heq heqba ha hb hadata hbdata
          hmaxmin hlen hd1
        omega
      by_cases hDle : dpRec (a.data.map Char.toLower)
          (b.data.map Char.toLower) (a.data.map Char.toLower).length
          (b.data.map Char.toLower).length ≤ N
      · have hnpa := dpRec_no_prune (a.data.map Char.toLower)
          (b.data.map Char.toLower) N hbm hd1 hDle
        have hnpb := dpRec_no_prune (b.data.map Char.toLower)
          (a.data.map Char.toLower) N ham hd2
          (by rw [hsymmD]; exact hDle)
        rw [hsa.2 hnpa, hsb.2 hnpb, hsymmD]
      · have h1 : min (dlOuter (a.data.map Char.toLower)
            (b.data.map Char.toLower) N 1 (a.data.map Char.toLower)
            (dpRow (a.data.map Char.toLower) (b.data.map Char.toLower) 0)
            (dpRow (a.data.map Char.toLower) (b.data.map Char.toLower) 0))
            (N + 1) = N + 1 := by
          by_cases hex : ∃ r, 1 ≤ r ∧ r ≤ (a.data.map Char.toLower).length ∧
              ∀ j, 1 ≤ j → j ≤ (b.data.map Char.toLower).length →
                N < dpRec (a.data.map Char.toLower)
                  (b.data.map Char.toLower) r j
          · rw [hsa.1 hex]
            omega
          · rw [hsa.2 hex]
            omega
        have h2 : min (dlOuter (b.data.map Char.toLower)
            (a.data.map Char.toLower) N 1 (b.data.map Char.toLower)
            (dpRow (b.data.map Char.toLower) (a.data.map Char.toLower) 0)
            (dpRow (b.data.map Char.toLower) (a.data.map Char.toLower) 0))
            (N + 1) = N + 1 := by
          by_cases hex : ∃ r, 1 ≤ r ∧ r ≤ (b.data.map Char.toLower).length ∧
              ∀ j, 1 ≤ j → j ≤ (a.data.map Char.toLower).length →
                N < dpRec (b.data.map Char.toLower)
                  (a.data.map Char.toLower) r j
          · rw [hsb.1 hex]
            omega
          · rw [hsb.2 hex]
            rw [hsymmD]
            omega
        rw [h1, h2]

/-- Witness for clamped symmetry at concrete nonempty tokens. -/
theorem damerau_clamped_symmetric_witness :
    min (damerauLevenshtein "gti" "git" 1) 2 =
      min (damerauLevenshtein "git" "gti" 1) 2 :=
  damerau_clamped_symmetric "gti" "git" 1 (by decide) (by decide)

/-- C8 (counterexample): the distance function is not symmetric as
claimed — the early-exit prune fires at different points for the two
argument orders (`4 ≠ 3`), and an empty token was already asymmetric
(`3 ≠ 1`). -/
theorem damerau_not_symmetric :
    damerauLevenshtein "ab" "cdef" 2 = 4 ∧
    damerauLevenshtein "cdef" "ab" 2 = 3 ∧
    damerauLevenshtein "a" "" 2 = 3 ∧
    damerauLevenshtein "" "a" 2 = 1 := by decide

end FuzzRun
